import Mathlib

/-
Shallow embedding of the mcp-batch-server batch engine (src/index.ts).

The embedding models:
  - the zod request schemas (FileOperationSchema, BatchOptionsSchema,
    BatchRequestSchema) as parsers over raw records whose fields are
    Option-valued (absent = none);
  - groupOperationsByType as a fold over an insertion-ordered association
    list, mirroring the insertion-order semantics of a JS Map;
  - executeFileOperation as a retry loop over per-attempt file-system
    outcomes supplied by an environment (the file system itself is not
    modelled; each attempt's aggregate fs interaction is abstracted as one
    FsAttempt value), instrumented with the number of attempts made;
  - handleBatchFileOperations as a coordinator running groups sequentially;
    within a group, the async completion order is abstracted by a reorder
    parameter that permutes each group, and each completed operation
    appends exactly one record to results or errors, as in the source.
    With stopOnError, the first failure in completion order aborts the
    rest of the group and all later groups, as the source's throw /
    Promise.all rejection / break does.
-/

namespace BatchServer

inductive OpType
  | create
  | read
  | update
  | delete
  | copy
  | move
  deriving DecidableEq

inductive Encoding
  | utf8
  | base64
  deriving DecidableEq

structure FileOperation where
  type : OpType
  path : String
  content : Option String
  destination : Option String
  encoding : Encoding
  deriving DecidableEq

structure BatchOptions where
  maxConcurrent : Nat
  timeoutMs : Nat
  stopOnError : Bool
  retryAttempts : Nat
  groupByType : Bool
  deriving DecidableEq

structure BatchRequest where
  operations : List FileOperation
  options : Option BatchOptions
  deriving DecidableEq

/-- Result of BatchOptionsSchema.parse given an empty object: every field
takes its declared default (lines 34-40 of the source). -/
def defaultBatchOptions : BatchOptions :=
  ⟨10, 30000, false, 1, true⟩

/- Raw (pre-validation) shapes: each field is Option-valued, none meaning
the field is absent from the incoming JSON object. -/

structure RawFileOperation where
  type : Option String
  path : Option String
  content : Option String
  destination : Option String
  encoding : Option String
  deriving DecidableEq

structure RawBatchOptions where
  maxConcurrent : Option Nat
  timeoutMs : Option Nat
  stopOnError : Option Bool
  retryAttempts : Option Nat
  groupByType : Option Bool
  deriving DecidableEq

structure RawBatchRequest where
  operations : Option (List RawFileOperation)
  options : Option RawBatchOptions
  deriving DecidableEq

def parseOpType (s : String) : Except String OpType :=
  if s = "create" then Except.ok OpType.create
  else if s = "read" then Except.ok OpType.read
  else if s = "update" then Except.ok OpType.update
  else if s = "delete" then Except.ok OpType.delete
  else if s = "copy" then Except.ok OpType.copy
  else if s = "move" then Except.ok OpType.move
  else Except.error ("type: invalid enum value " ++ s)

def parseEncoding (s : Option String) : Except String Encoding :=
  match s with
  | none => Except.ok Encoding.utf8
  | some v =>
    if v = "utf8" then Except.ok Encoding.utf8
    else if v = "base64" then Except.ok Encoding.base64
    else Except.error ("encoding: invalid enum value " ++ v)

/-- FileOperationSchema.parse (lines 26-32): type and path are required,
content and destination are optional, encoding defaults to utf8. -/
def parseFileOperation (r : RawFileOperation) : Except String FileOperation :=
  match r.type with
  | none => Except.error "type: Required"
  | some s =>
    match parseOpType s with
    | Except.error e => Except.error e
    | Except.ok t =>
      match r.path with
      | none => Except.error "path: Required"
      | some p =>
        match parseEncoding r.encoding with
        | Except.error e => Except.error e
        | Except.ok enc => Except.ok ⟨t, p, r.content, r.destination, enc⟩

def parseBoundedNat (v : Option Nat) (lo : Nat) (hi : Option Nat) (dflt : Nat)
    (field : String) : Except String Nat :=
  match v with
  | none => Except.ok dflt
  | some n =>
    if n < lo then Except.error (field ++ ": too small")
    else
      match hi with
      | none => Except.ok n
      | some h => if h < n then Except.error (field ++ ": too big") else Except.ok n

/-- BatchOptionsSchema.parse (lines 34-40): every field optional with a
default; maxConcurrent in [1,100], timeoutMs at least 1000, retryAttempts
in [0,3]. -/
def parseBatchOptions (r : RawBatchOptions) : Except String BatchOptions :=
  match parseBoundedNat r.maxConcurrent 1 (some 100) 10 "maxConcurrent" with
  | Except.error e => Except.error e
  | Except.ok mc =>
    match parseBoundedNat r.timeoutMs 1000 none 30000 "timeoutMs" with
    | Except.error e => Except.error e
    | Except.ok tm =>
      match parseBoundedNat r.retryAttempts 0 (some 3) 1 "retryAttempts" with
      | Except.error e => Except.error e
      | Except.ok ra =>
        Except.ok ⟨mc, tm, r.stopOnError.getD false, ra, r.groupByType.getD true⟩

def parseOperationList : List RawFileOperation → Except String (List FileOperation)
  | [] => Except.ok []
  | r :: rs =>
    match parseFileOperation r with
    | Except.error e => Except.error e
    | Except.ok o =>
      match parseOperationList rs with
      | Except.error e => Except.error e
      | Except.ok os => Except.ok (o :: os)

/-- BatchRequestSchema.parse (lines 42-45): operations is a required array
of FileOperation, options is optional. -/
def parseBatchRequest (r : RawBatchRequest) : Except String BatchRequest :=
  match r.operations with
  | none => Except.error "operations: Required"
  | some l =>
    match parseOperationList l with
    | Except.error e => Except.error e
    | Except.ok ops =>
      match r.options with
      | none => Except.ok ⟨ops, none⟩
      | some ro =>
        match parseBatchOptions ro with
        | Except.error e => Except.error e
        | Except.ok o => Except.ok ⟨ops, some o⟩

/- Grouping (groupOperationsByType, lines 266-277).  The JS Map preserves
key-insertion order, so it is modelled as an association list to which a
new key is appended at the end and an existing key has the operation
appended to its group. -/

def insertIntoGroups (groups : List (OpType × List FileOperation))
    (op : FileOperation) : List (OpType × List FileOperation) :=
  match groups with
  | [] => [(op.type, [op])]
  | (t, g) :: rest =>
    if t = op.type then (t, g ++ [op]) :: rest
    else (t, g) :: insertIntoGroups rest op

def groupOperationsByType (operations : List FileOperation) :
    List (List FileOperation) :=
  (operations.foldl insertIntoGroups []).map Prod.snd

/-- The distinct operation types of the input, in order of first
occurrence.  Specification-side description of the group order produced by
groupOperationsByType. -/
def firstSeenTypes (operations : List FileOperation) : List OpType :=
  operations.foldl (fun acc op => if op.type ∈ acc then acc else acc ++ [op.type]) []

/-- The operations of the input that carry type t, in input order. -/
def typeFilter (operations : List FileOperation) (t : OpType) : List FileOperation :=
  operations.filter (fun o => decide (o.type = t))

/-- Lines 205-207: group by type when requested, otherwise a single group
holding all operations in original order. -/
def groupedOperations (groupByType : Bool) (operations : List FileOperation) :
    List (List FileOperation) :=
  if groupByType then groupOperationsByType operations else [operations]

/- Executor (executeFileOperation, lines 279-335). -/

/-- Outcome of one attempt's aggregate file-system interaction, supplied
by the environment: ok carries the content that a read would return (it is
ignored by the other operation kinds), err carries the thrown error's
message. -/
inductive FsAttempt
  | ok (content : String)
  | err (msg : String)
  deriving DecidableEq

/-- Value returned by a successful execution: a read returns the operation
spread with its content (line 296); every other kind returns the
type/path/timestamp/success/attempt record (lines 319-325). -/
inductive ExecValue
  | readResult (operation : FileOperation)
  | successRecord (type : OpType) (path : String) (timestamp : String)
      (success : Bool) (attempt : Nat)
  deriving DecidableEq

def ExecValue.isSuccessRecord : ExecValue → Bool
  | ExecValue.readResult _ => false
  | ExecValue.successRecord _ _ _ _ _ => true

/-- One iteration of the executor's try block: the copy/move destination
check (lines 307, 313) throws before any file-system call; read returns
the augmented operation; other kinds fall through to the success record.
attempt is the 0-based loop index. -/
def attemptOperation (op : FileOperation) (fs : FsAttempt) (timestamp : String)
    (attempt : Nat) : Except String ExecValue :=
  match op.type with
  | OpType.read =>
    match fs with
    | FsAttempt.ok c => Except.ok (ExecValue.readResult { op with content := some c })
    | FsAttempt.err e => Except.error e
  | OpType.copy =>
    if op.destination.isNone then Except.error "Destination required for copy"
    else
      match fs with
      | FsAttempt.ok _ =>
        Except.ok (ExecValue.successRecord op.type op.path timestamp true (attempt + 1))
      | FsAttempt.err e => Except.error e
  | OpType.move =>
    if op.destination.isNone then Except.error "Destination required for move"
    else
      match fs with
      | FsAttempt.ok _ =>
        Except.ok (ExecValue.successRecord op.type op.path timestamp true (attempt + 1))
      | FsAttempt.err e => Except.error e
  | _ =>
    match fs with
    | FsAttempt.ok _ =>
      Except.ok (ExecValue.successRecord op.type op.path timestamp true (attempt + 1))
    | FsAttempt.err e => Except.error e

/-- The retry loop (lines 286-334) from 0-based attempt index `attempt`
with `remaining` further attempts allowed after the current one, together
with the total number of attempts made (the backoff waits have no
observable effect beyond time and are not modelled).  env gives each
attempt's file-system outcome and ts each attempt's timestamp. -/
def executeFrom (op : FileOperation) (env : Nat → FsAttempt) (ts : Nat → String) :
    Nat → Nat → Except String ExecValue × Nat
  | attempt, remaining =>
    match attemptOperation op (env attempt) (ts attempt) attempt with
    | Except.ok v => (Except.ok v, attempt + 1)
    | Except.error e =>
      match remaining with
      | 0 => (Except.error e, attempt + 1)
      | r + 1 => executeFrom op env ts (attempt + 1) r

/-- executeFileOperation: up to retryAttempts + 1 attempts, propagating
the last attempt's error.  Returns the result and the number of attempts
made. -/
def executeFileOperation (op : FileOperation) (options : BatchOptions)
    (env : Nat → FsAttempt) (ts : Nat → String) : Except String ExecValue × Nat :=
  executeFrom op env ts 0 options.retryAttempts

/- Coordinator (handleBatchFileOperations, lines 197-264). -/

/-- The record pushed into results on success (line 218). -/
structure SuccessRecord where
  operation : FileOperation
  result : ExecValue
  status : String
  deriving DecidableEq

/-- The record pushed into errors on failure (lines 221-225). -/
structure ErrorRecord where
  operation : FileOperation
  error : String
  status : String
  deriving DecidableEq

/-- Coordinator state: the results and errors arrays, plus a ghost list of
the operations actually attempted, in completion order. -/
structure BatchState where
  results : List SuccessRecord
  errors : List ErrorRecord
  attempted : List FileOperation
  deriving DecidableEq

/-- Run one group's operations in completion order (lines 213-235): each
completed operation appends exactly one record; on failure with
stopOnError the rest of the group is aborted (the thrown error rejects
Promise.all and the loop breaks).  The returned Bool reports the abort. -/
def runGroup (exec : FileOperation → Except String ExecValue) (stopOnError : Bool) :
    List FileOperation → BatchState → BatchState × Bool
  | [], st => (st, false)
  | op :: rest, st =>
    match exec op with
    | Except.ok v =>
      runGroup exec stopOnError rest
        ⟨st.results ++ [⟨op, v, "success"⟩], st.errors, st.attempted ++ [op]⟩
    | Except.error e =>
      if stopOnError then
        (⟨st.results, st.errors ++ [⟨op, e, "failed"⟩], st.attempted ++ [op]⟩, true)
      else
        runGroup exec stopOnError rest
          ⟨st.results, st.errors ++ [⟨op, e, "failed"⟩], st.attempted ++ [op]⟩

/-- Run the groups sequentially (lines 213-244): a group that aborted
stops the whole run (the break at line 241). -/
def runGroups (exec : FileOperation → Except String ExecValue) (stopOnError : Bool) :
    List (List FileOperation) → BatchState → BatchState
  | [], st => st
  | g :: gs, st =>
    match runGroup exec stopOnError g st with
    | (st1, true) => st1
    | (st1, false) => runGroups exec stopOnError gs st1

/-- The summary object built at lines 246-252. -/
structure BatchSummary where
  total : Nat
  successful : Nat
  failed : Nat
  results : List SuccessRecord
  errors : List ErrorRecord
  deriving DecidableEq

/-- The whole batch run, abstracted over the per-operation executor
result exec and the per-group completion order reorder.  Returns the
summary and the ghost list of operations actually attempted. -/
def runBatch (operations : List FileOperation) (opts : BatchOptions)
    (exec : FileOperation → Except String ExecValue)
    (reorder : List FileOperation → List FileOperation) :
    BatchSummary × List FileOperation :=
  let grouped := (groupedOperations opts.groupByType operations).map reorder
  let st := runGroups exec opts.stopOnError grouped ⟨[], [], []⟩
  (⟨operations.length, st.results.length, st.errors.length, st.results, st.errors⟩,
   st.attempted)

/-- The executor result for one operation, as the coordinator calls it at
line 217: the first component of the retry loop, under the resolved
options.  env and ts give each operation its per-attempt environment. -/
def execOf (opts : BatchOptions) (env : FileOperation → Nat → FsAttempt)
    (ts : FileOperation → Nat → String) (op : FileOperation) :
    Except String ExecValue :=
  (executeFileOperation op opts (env op) (ts op)).1

/-- End-to-end batch run: coordinator plus executor. -/
def batchPipeline (operations : List FileOperation) (opts : BatchOptions)
    (env : FileOperation → Nat → FsAttempt) (ts : FileOperation → Nat → String)
    (reorder : List FileOperation → List FileOperation) :
    BatchSummary × List FileOperation :=
  runBatch operations opts (execOf opts env ts) reorder

/- Tool boundary (setupHandlers, lines 169-194). -/

/-- A content item's text payload: the serialized summary on success, a
raw string for the boundary's error text (serialization itself is kept
abstract). -/
inductive TextPayload
  | summaryJson (s : BatchSummary)
  | raw (s : String)
  deriving DecidableEq

/-- A tool response: a list of content items, each a type tag (always
"text" here) and a payload. -/
structure ToolResponse where
  content : List (String × TextPayload)
  deriving DecidableEq

/-- handleBatchFileOperations (lines 197-264): parse the request, resolve
options (absent options fall back to the schema defaults, lines 199-200),
run the batch, return the serialized summary.  A parse failure is a thrown
exception, modelled as Except.error. -/
def handleBatchFileOperations (args : RawBatchRequest)
    (env : FileOperation → Nat → FsAttempt) (ts : FileOperation → Nat → String)
    (reorder : List FileOperation → List FileOperation) :
    Except String ToolResponse :=
  match parseBatchRequest args with
  | Except.error e => Except.error e
  | Except.ok req =>
    Except.ok ⟨[("text",
      TextPayload.summaryJson
        ((batchPipeline req.operations (req.options.getD defaultBatchOptions)
          env ts reorder).1))]⟩

/-- The catch at lines 183-193: an exception escaping the handler becomes
a text payload starting with the prefix Error followed by the message. -/
def callToolBoundary (r : Except String ToolResponse) : ToolResponse :=
  match r with
  | Except.ok v => v
  | Except.error e => ⟨[("text", TextPayload.raw ("Error: " ++ e))]⟩

/- Specification-side helpers. -/

def isOkE {α : Type} (r : Except String α) : Bool :=
  match r with
  | Except.ok _ => true
  | Except.error _ => false

/-- The success records a run over ops would push, in order. -/
def expectedRecords (exec : FileOperation → Except String ExecValue)
    (ops : List FileOperation) : List SuccessRecord :=
  ops.filterMap (fun op =>
    match exec op with
    | Except.ok v => some ⟨op, v, "success"⟩
    | Except.error _ => none)

/-- The error records a run over ops would push, in order. -/
def expectedErrors (exec : FileOperation → Except String ExecValue)
    (ops : List FileOperation) : List ErrorRecord :=
  ops.filterMap (fun op =>
    match exec op with
    | Except.ok _ => none
    | Except.error e => some ⟨op, e, "failed"⟩)

/- Grouping lemmas: groupOperationsByType is the first-seen-type list of
groups, each group being the input filtered to one type. -/

lemma mem_foldl_firstSeen (t : OpType) :
    ∀ (ops : List FileOperation) (acc : List OpType),
      t ∈ ops.foldl (fun acc op => if op.type ∈ acc then acc else acc ++ [op.type]) acc ↔
        t ∈ acc ∨ t ∈ ops.map FileOperation.type := by
  intro ops
  induction ops with
  | nil => intro acc; simp
  | cons op rest ih =>
    intro acc
    simp only [List.foldl_cons, List.map_cons, List.mem_cons]
    rw [ih]
    by_cases h : op.type ∈ acc
    · simp only [if_pos h]
      constructor
      · intro hc; rcases hc with hc | hc
        · exact Or.inl hc
        · exact Or.inr (Or.inr hc)
      · intro hc; rcases hc with hc | hc | hc
        · exact Or.inl hc
        · exact Or.inl (hc ▸ h)
        · exact Or.inr hc
    · simp only [if_neg h, List.mem_append, List.mem_singleton]
      tauto

lemma mem_firstSeenTypes (t : OpType) (ops : List FileOperation) :
    t ∈ firstSeenTypes ops ↔ t ∈ ops.map FileOperation.type := by
  have := mem_foldl_firstSeen t ops []
  simpa [firstSeenTypes] using this

lemma nodup_foldl_firstSeen :
    ∀ (ops : List FileOperation) (acc : List OpType), acc.Nodup →
      (ops.foldl (fun acc op => if op.type ∈ acc then acc else acc ++ [op.type]) acc).Nodup := by
  intro ops
  induction ops with
  | nil => intro acc h; simpa using h
  | cons op rest ih =>
    intro acc h
    simp only [List.foldl_cons]
    by_cases hm : op.type ∈ acc
    · rw [if_pos hm]; exact ih acc h
    · rw [if_neg hm]
      apply ih
      simp [List.nodup_append, h, hm]

lemma firstSeenTypes_nodup (ops : List FileOperation) :
    (firstSeenTypes ops).Nodup :=
  nodup_foldl_firstSeen ops [] List.nodup_nil

lemma firstSeenTypes_append_singleton (p : List FileOperation) (x : FileOperation) :
    firstSeenTypes (p ++ [x]) =
      if x.type ∈ firstSeenTypes p then firstSeenTypes p
      else firstSeenTypes p ++ [x.type] := by
  simp [firstSeenTypes, List.foldl_append]

lemma insertIntoGroups_of_mem (x : FileOperation) :
    ∀ (ts : List OpType) (f : OpType → List FileOperation), ts.Nodup → x.type ∈ ts →
      insertIntoGroups (ts.map (fun t => (t, f t))) x =
        ts.map (fun t => (t, if t = x.type then f t ++ [x] else f t)) := by
  intro ts
  induction ts with
  | nil => intro f _ hm; simp at hm
  | cons t rest ih =>
    intro f hnd hm
    simp only [List.map_cons, insertIntoGroups]
    by_cases h : t = x.type
    · rw [if_pos h, if_pos h]
      have hrest : ∀ u ∈ rest, u ≠ x.type := by
        intro u hu he
        have ht : t ∉ rest := (List.nodup_cons.mp hnd).1
        rw [he, ← h] at hu
        exact ht hu
      have : rest.map (fun u => (u, if u = x.type then f u ++ [x] else f u)) =
          rest.map (fun u => (u, f u)) := by
        apply List.map_congr_left
        intro u hu
        rw [if_neg (hrest u hu)]
      rw [this]
    · rw [if_neg h, if_neg h]
      have hm' : x.type ∈ rest := by
        rcases List.mem_cons.mp hm with hc | hc
        · exact absurd hc.symm h
        · exact hc
      rw [ih f (List.nodup_cons.mp hnd).2 hm']

lemma insertIntoGroups_of_not_mem (x : FileOperation) :
    ∀ (ts : List OpType) (f : OpType → List FileOperation), x.type ∉ ts →
      insertIntoGroups (ts.map (fun t => (t, f t))) x =
        ts.map (fun t => (t, f t)) ++ [(x.type, [x])] := by
  intro ts
  induction ts with
  | nil => intro f _; rfl
  | cons t rest ih =>
    intro f hm
    have ht : t ≠ x.type := fun he => hm (List.mem_cons.mpr (Or.inl he.symm))
    have hr : x.type ∉ rest := fun hc => hm (List.mem_cons.mpr (Or.inr hc))
    simp only [List.map_cons, insertIntoGroups, if_neg ht]
    rw [ih f hr]
    rfl

lemma typeFilter_append_singleton (p : List FileOperation) (x : FileOperation) (t : OpType) :
    typeFilter (p ++ [x]) t =
      typeFilter p t ++ (if x.type = t then [x] else []) := by
  by_cases h : x.type = t <;> simp [typeFilter, List.filter_append, h]

lemma typeFilter_eq_nil_of_not_mem (p : List FileOperation) (t : OpType)
    (h : t ∉ p.map FileOperation.type) : typeFilter p t = [] := by
  apply List.filter_eq_nil_iff.mpr
  intro o ho
  simp only [decide_eq_true_eq]
  intro he
  exact h (List.mem_map.mpr ⟨o, ho, he⟩)

lemma foldl_insertIntoGroups_eq (ops : List FileOperation) :
    ops.foldl insertIntoGroups [] =
      (firstSeenTypes ops).map (fun t => (t, typeFilter ops t)) := by
  induction ops using List.reverseRecOn with
  | nil => rfl
  | append_singleton p x ih =>
    rw [List.foldl_append, List.foldl_cons, List.foldl_nil, ih,
      firstSeenTypes_append_singleton]
    by_cases h : x.type ∈ firstSeenTypes p
    · rw [if_pos h,
        insertIntoGroups_of_mem x (firstSeenTypes p) (typeFilter p)
          (firstSeenTypes_nodup p) h]
      apply List.map_congr_left
      intro t ht
      by_cases he : t = x.type
      · simp [he, typeFilter_append_singleton]
      · have : x.type ≠ t := fun hc => he hc.symm
        simp [if_neg he, typeFilter_append_singleton, this]
    · rw [if_neg h,
        insertIntoGroups_of_not_mem x (firstSeenTypes p) (typeFilter p) h]
      have hx : typeFilter (p ++ [x]) x.type = [x] := by
        rw [typeFilter_append_singleton, if_pos rfl,
          typeFilter_eq_nil_of_not_mem p x.type
            (fun hc => h ((mem_firstSeenTypes x.type p).mpr hc))]
        rfl
      rw [List.map_append]
      congr 1
      · apply List.map_congr_left
        intro t ht
        have : x.type ≠ t := by
          intro hc
          exact h (hc ▸ ht)
        simp [typeFilter_append_singleton, this]
      · simp [hx]

/-- Characterization of groupOperationsByType: one group per distinct
type in first-occurrence order, each group the input filtered to that
type (hence in input order). -/
lemma groupOperationsByType_eq (ops : List FileOperation) :
    groupOperationsByType ops = (firstSeenTypes ops).map (typeFilter ops) := by
  rw [groupOperationsByType, foldl_insertIntoGroups_eq, List.map_map]
  rfl

lemma mem_typeFilter_type {ops : List FileOperation} {t : OpType}
    {x : FileOperation} (hx : x ∈ typeFilter ops t) : x.type = t := by
  have := (List.mem_filter.mp hx).2
  simpa using this

lemma join_map_typeFilter_perm :
    ∀ (ts : List OpType) (ops : List FileOperation), ts.Nodup →
      (∀ op ∈ ops, op.type ∈ ts) →
      List.Perm ((ts.map (typeFilter ops)).flatten) ops := by
  intro ts
  induction ts with
  | nil =>
    intro ops _ hall
    cases ops with
    | nil => simp
    | cons o os => exact absurd (hall o (by simp)) (by simp)
  | cons t rest ih =>
    intro ops hnd hall
    simp only [List.map_cons, List.flatten_cons]
    have hrest : rest.map (typeFilter ops) =
        rest.map (typeFilter (ops.filter (fun o => !decide (o.type = t)))) := by
      apply List.map_congr_left
      intro u hu
      have hut : u ≠ t := fun he => (List.nodup_cons.mp hnd).1 (he ▸ hu)
      rw [typeFilter, typeFilter, List.filter_filter]
      apply List.filter_congr
      intro o _
      by_cases ho : o.type = u
      · simp [ho, hut]
      · simp [ho]
    have hihp : List.Perm ((rest.map (typeFilter ops)).flatten)
        (ops.filter (fun o => !decide (o.type = t))) := by
      rw [hrest]
      apply ih _ (List.nodup_cons.mp hnd).2
      intro op hop
      have hmem : op ∈ ops := (List.mem_filter.mp hop).1
      have hne : op.type ≠ t := by
        have := (List.mem_filter.mp hop).2
        simpa using this
      rcases List.mem_cons.mp (hall op hmem) with hc | hc
      · exact absurd hc hne
      · exact hc
    have key := List.filter_append_perm (fun o => decide (o.type = t)) ops
    exact (List.Perm.append_left (typeFilter ops t) hihp).trans key

/- Coordinator lemmas. -/

lemma exists_ok_of_isOkE {r : Except String ExecValue} (h : isOkE r = true) :
    ∃ v, r = Except.ok v := by
  cases r with
  | ok v => exact ⟨v, rfl⟩
  | error e => simp [isOkE] at h

lemma expectedRecords_nil (exec : FileOperation → Except String ExecValue) :
    expectedRecords exec [] = [] := rfl

lemma expectedErrors_nil (exec : FileOperation → Except String ExecValue) :
    expectedErrors exec [] = [] := rfl

lemma expectedRecords_cons_ok {exec : FileOperation → Except String ExecValue}
    {op : FileOperation} {v : ExecValue} (h : exec op = Except.ok v)
    (l : List FileOperation) :
    expectedRecords exec (op :: l) = ⟨op, v, "success"⟩ :: expectedRecords exec l := by
  simp [expectedRecords, h]

lemma expectedRecords_cons_error {exec : FileOperation → Except String ExecValue}
    {op : FileOperation} {e : String} (h : exec op = Except.error e)
    (l : List FileOperation) :
    expectedRecords exec (op :: l) = expectedRecords exec l := by
  simp [expectedRecords, h]

lemma expectedErrors_cons_ok {exec : FileOperation → Except String ExecValue}
    {op : FileOperation} {v : ExecValue} (h : exec op = Except.ok v)
    (l : List FileOperation) :
    expectedErrors exec (op :: l) = expectedErrors exec l := by
  simp [expectedErrors, h]

lemma expectedErrors_cons_error {exec : FileOperation → Except String ExecValue}
    {op : FileOperation} {e : String} (h : exec op = Except.error e)
    (l : List FileOperation) :
    expectedErrors exec (op :: l) = ⟨op, e, "failed"⟩ :: expectedErrors exec l := by
  simp [expectedErrors, h]

lemma expectedRecords_append (exec : FileOperation → Except String ExecValue)
    (l1 l2 : List FileOperation) :
    expectedRecords exec (l1 ++ l2) = expectedRecords exec l1 ++ expectedRecords exec l2 :=
  List.filterMap_append l1 l2 _

lemma expectedErrors_append (exec : FileOperation → Except String ExecValue)
    (l1 l2 : List FileOperation) :
    expectedErrors exec (l1 ++ l2) = expectedErrors exec l1 ++ expectedErrors exec l2 :=
  List.filterMap_append l1 l2 _

lemma expectedRecords_length (exec : FileOperation → Except String ExecValue) :
    ∀ l : List FileOperation,
      (expectedRecords exec l).length = (l.filter (fun op => isOkE (exec op))).length := by
  intro l
  induction l with
  | nil => rfl
  | cons op rest ih =>
    cases h : exec op with
    | ok v =>
      rw [expectedRecords_cons_ok h]
      simp [List.filter_cons, isOkE, h, ih]
    | error e =>
      rw [expectedRecords_cons_error h]
      simp [List.filter_cons, isOkE, h, ih]

lemma expectedErrors_length (exec : FileOperation → Except String ExecValue) :
    ∀ l : List FileOperation,
      (expectedErrors exec l).length = (l.filter (fun op => !isOkE (exec op))).length := by
  intro l
  induction l with
  | nil => rfl
  | cons op rest ih =>
    cases h : exec op with
    | ok v =>
      rw [expectedErrors_cons_ok h]
      simp [List.filter_cons, isOkE, h, ih]
    | error e =>
      rw [expectedErrors_cons_error h]
      simp [List.filter_cons, isOkE, h, ih]

lemma expected_length_sum (exec : FileOperation → Except String ExecValue) :
    ∀ l : List FileOperation,
      (expectedRecords exec l).length + (expectedErrors exec l).length = l.length := by
  intro l
  induction l with
  | nil => rfl
  | cons op rest ih =>
    cases h : exec op with
    | ok v =>
      rw [expectedRecords_cons_ok h, expectedErrors_cons_ok h]
      simp only [List.length_cons]
      omega
    | error e =>
      rw [expectedRecords_cons_error h, expectedErrors_cons_error h]
      simp only [List.length_cons]
      omega

lemma runGroup_cons_ok {exec : FileOperation → Except String ExecValue}
    {op : FileOperation} {v : ExecValue} (stop : Bool)
    (h : exec op = Except.ok v) (rest : List FileOperation) (st : BatchState) :
    runGroup exec stop (op :: rest) st =
      runGroup exec stop rest
        ⟨st.results ++ [⟨op, v, "success"⟩], st.errors, st.attempted ++ [op]⟩ := by
  rw [runGroup, h]

lemma runGroup_cons_error_true {exec : FileOperation → Except String ExecValue}
    {op : FileOperation} {e : String}
    (h : exec op = Except.error e) (rest : List FileOperation) (st : BatchState) :
    runGroup exec true (op :: rest) st =
      (⟨st.results, st.errors ++ [⟨op, e, "failed"⟩], st.attempted ++ [op]⟩, true) := by
  rw [runGroup, h]
  rfl

lemma runGroup_cons_error_false {exec : FileOperation → Except String ExecValue}
    {op : FileOperation} {e : String}
    (h : exec op = Except.error e) (rest : List FileOperation) (st : BatchState) :
    runGroup exec false (op :: rest) st =
      runGroup exec false rest
        ⟨st.results, st.errors ++ [⟨op, e, "failed"⟩], st.attempted ++ [op]⟩ := by
  rw [runGroup, h]
  rfl

lemma runGroups_cons_true {exec : FileOperation → Except String ExecValue}
    {stop : Bool} {g : List FileOperation} {st st1 : BatchState}
    (hr : runGroup exec stop g st = (st1, true)) (gs : List (List FileOperation)) :
    runGroups exec stop (g :: gs) st = st1 := by
  rw [runGroups, hr]

lemma runGroups_cons_false {exec : FileOperation → Except String ExecValue}
    {stop : Bool} {g : List FileOperation} {st st1 : BatchState}
    (hr : runGroup exec stop g st = (st1, false)) (gs : List (List FileOperation)) :
    runGroups exec stop (g :: gs) st = runGroups exec stop gs st1 := by
  rw [runGroups, hr]

lemma runGroup_master (exec : FileOperation → Except String ExecValue) (stop : Bool) :
    ∀ (g : List FileOperation) (st : BatchState), ∃ ops1,
      (runGroup exec stop g st).1 =
        ⟨st.results ++ expectedRecords exec ops1,
         st.errors ++ expectedErrors exec ops1,
         st.attempted ++ ops1⟩ := by
  intro g
  induction g with
  | nil =>
    intro st
    refine ⟨[], ?_⟩
    simp [runGroup, expectedRecords_nil, expectedErrors_nil]
  | cons op rest ih =>
    intro st
    cases h : exec op with
    | ok v =>
      obtain ⟨o1, h1⟩ :=
        ih ⟨st.results ++ [⟨op, v, "success"⟩], st.errors, st.attempted ++ [op]⟩
      refine ⟨op :: o1, ?_⟩
      rw [runGroup_cons_ok stop h, h1, expectedRecords_cons_ok h,
        expectedErrors_cons_ok h]
      simp [List.append_assoc]
    | error e =>
      cases stop with
      | true =>
        refine ⟨[op], ?_⟩
        rw [runGroup_cons_error_true h]
        simp [expectedRecords_cons_error h, expectedErrors_cons_error h,
          expectedRecords_nil, expectedErrors_nil]
      | false =>
        obtain ⟨o1, h1⟩ :=
          ih ⟨st.results, st.errors ++ [⟨op, e, "failed"⟩], st.attempted ++ [op]⟩
        refine ⟨op :: o1, ?_⟩
        rw [runGroup_cons_error_false h, h1, expectedRecords_cons_error h,
          expectedErrors_cons_error h]
        simp [List.append_assoc]

lemma runGroups_master (exec : FileOperation → Except String ExecValue) (stop : Bool) :
    ∀ (gs : List (List FileOperation)) (st : BatchState), ∃ ops1,
      runGroups exec stop gs st =
        ⟨st.results ++ expectedRecords exec ops1,
         st.errors ++ expectedErrors exec ops1,
         st.attempted ++ ops1⟩ := by
  intro gs
  induction gs with
  | nil =>
    intro st
    refine ⟨[], ?_⟩
    simp [runGroups, expectedRecords_nil, expectedErrors_nil]
  | cons g rest ih =>
    intro st
    obtain ⟨o1, h1⟩ := runGroup_master exec stop g st
    rcases hr : runGroup exec stop g st with ⟨st1, b⟩
    rw [hr] at h1
    simp only at h1
    cases b with
    | true =>
      refine ⟨o1, ?_⟩
      rw [runGroups_cons_true hr]
      exact h1
    | false =>
      obtain ⟨o2, h2⟩ := ih st1
      refine ⟨o1 ++ o2, ?_⟩
      rw [runGroups_cons_false hr, h2, h1]
      simp [expectedRecords_append, expectedErrors_append, List.append_assoc]

lemma runGroup_stop_false (exec : FileOperation → Except String ExecValue) :
    ∀ (g : List FileOperation) (st : BatchState),
      runGroup exec false g st =
        (⟨st.results ++ expectedRecords exec g,
          st.errors ++ expectedErrors exec g,
          st.attempted ++ g⟩, false) := by
  intro g
  induction g with
  | nil =>
    intro st
    simp [runGroup, expectedRecords_nil, expectedErrors_nil]
  | cons op rest ih =>
    intro st
    cases h : exec op with
    | ok v =>
      rw [runGroup_cons_ok false h, ih, expectedRecords_cons_ok h,
        expectedErrors_cons_ok h]
      simp [List.append_assoc]
    | error e =>
      rw [runGroup_cons_error_false h, ih, expectedRecords_cons_error h,
        expectedErrors_cons_error h]
      simp [List.append_assoc]

lemma runGroup_true_allok (exec : FileOperation → Except String ExecValue) :
    ∀ (g : List FileOperation) (st : BatchState),
      (∀ op ∈ g, isOkE (exec op) = true) →
      runGroup exec true g st =
        (⟨st.results ++ expectedRecords exec g, st.errors, st.attempted ++ g⟩, false) := by
  intro g
  induction g with
  | nil =>
    intro st _
    simp [runGroup, expectedRecords_nil]
  | cons op rest ih =>
    intro st hall
    obtain ⟨v, hv⟩ := exists_ok_of_isOkE (hall op (List.mem_cons_self op rest))
    rw [runGroup_cons_ok true hv,
      ih _ (fun o ho => hall o (List.mem_cons_of_mem op ho)),
      expectedRecords_cons_ok hv]
    simp [List.append_assoc]

lemma runGroup_true_failure (exec : FileOperation → Except String ExecValue)
    (f : FileOperation) (e : String) (hf : exec f = Except.error e) :
    ∀ (a : List FileOperation) (b : List FileOperation) (st : BatchState),
      (∀ op ∈ a, isOkE (exec op) = true) →
      runGroup exec true (a ++ f :: b) st =
        (⟨st.results ++ expectedRecords exec a,
          st.errors ++ [⟨f, e, "failed"⟩],
          st.attempted ++ (a ++ [f])⟩, true) := by
  intro a
  induction a with
  | nil =>
    intro b st _
    rw [List.nil_append, runGroup_cons_error_true hf]
    simp [expectedRecords_nil]
  | cons op rest ih =>
    intro b st hall
    obtain ⟨v, hv⟩ := exists_ok_of_isOkE (hall op (List.mem_cons_self op rest))
    rw [List.cons_append, runGroup_cons_ok true hv,
      ih b _ (fun o ho => hall o (List.mem_cons_of_mem op ho)),
      expectedRecords_cons_ok hv]
    simp [List.append_assoc]

lemma runGroups_true_pre (exec : FileOperation → Except String ExecValue) :
    ∀ (pre : List (List FileOperation)) (rest : List (List FileOperation))
      (st : BatchState),
      (∀ op ∈ pre.flatten, isOkE (exec op) = true) →
      runGroups exec true (pre ++ rest) st =
        runGroups exec true rest
          ⟨st.results ++ expectedRecords exec pre.flatten, st.errors,
           st.attempted ++ pre.flatten⟩ := by
  intro pre
  induction pre with
  | nil =>
    intro rest st _
    simp [expectedRecords_nil]
  | cons g gs ih =>
    intro rest st hall
    have hg : ∀ op ∈ g, isOkE (exec op) = true := by
      intro op hop
      exact hall op (List.mem_flatten.mpr ⟨g, by simp, hop⟩)
    have hgs : ∀ op ∈ gs.flatten, isOkE (exec op) = true := by
      intro op hop
      rcases List.mem_flatten.mp hop with ⟨l, hl, hol⟩
      exact hall op (List.mem_flatten.mpr ⟨l, by simp [hl], hol⟩)
    rw [List.cons_append,
      runGroups_cons_false (runGroup_true_allok exec g st hg) (gs ++ rest),
      ih rest _ hgs]
    simp [List.flatten_cons, expectedRecords_append, List.append_assoc]

/- Executor lemmas. -/

lemma exists_error_of_not_isOkE {r : Except String ExecValue}
    (h : isOkE r = false) : ∃ e, r = Except.error e := by
  cases r with
  | ok v => simp [isOkE] at h
  | error e => exact ⟨e, rfl⟩

lemma executeFrom_step_ok {op : FileOperation} {env : Nat → FsAttempt}
    {ts : Nat → String} {j : Nat} {v : ExecValue} (rem : Nat)
    (h : attemptOperation op (env j) (ts j) j = Except.ok v) :
    executeFrom op env ts j rem = (Except.ok v, j + 1) := by
  rw [executeFrom, h]

lemma executeFrom_step_error_zero {op : FileOperation} {env : Nat → FsAttempt}
    {ts : Nat → String} {j : Nat} {e : String}
    (h : attemptOperation op (env j) (ts j) j = Except.error e) :
    executeFrom op env ts j 0 = (Except.error e, j + 1) := by
  rw [executeFrom, h]

lemma executeFrom_step_error_succ {op : FileOperation} {env : Nat → FsAttempt}
    {ts : Nat → String} {j : Nat} {e : String} (r : Nat)
    (h : attemptOperation op (env j) (ts j) j = Except.error e) :
    executeFrom op env ts j (r + 1) = executeFrom op env ts (j + 1) r := by
  rw [executeFrom, h]

lemma executeFrom_ok_after_failures (op : FileOperation) (env : Nat → FsAttempt)
    (ts : Nat → String) (v : ExecValue) :
    ∀ (k j rem : Nat), k ≤ rem →
      (∀ i, j ≤ i → i < j + k → isOkE (attemptOperation op (env i) (ts i) i) = false) →
      attemptOperation op (env (j + k)) (ts (j + k)) (j + k) = Except.ok v →
      executeFrom op env ts j rem = (Except.ok v, j + k + 1) := by
  intro k
  induction k with
  | zero =>
    intro j rem _ _ hok
    rw [Nat.add_zero] at hok
    rw [executeFrom_step_ok rem hok]
  | succ k ih =>
    intro j rem hle hfail hok
    obtain ⟨e, he⟩ := exists_error_of_not_isOkE (hfail j le_rfl (by omega))
    cases rem with
    | zero => omega
    | succ r =>
      rw [executeFrom_step_error_succ r he]
      have harith : j + (k + 1) = (j + 1) + k := by omega
      rw [harith] at hok
      have := ih (j + 1) r (by omega)
        (fun i hi1 hi2 => hfail i (by omega) (by omega)) hok
      rw [this]
      have : (j + 1) + k + 1 = j + (k + 1) + 1 := by omega
      rw [this]

lemma executeFrom_all_fail (op : FileOperation) (env : Nat → FsAttempt)
    (ts : Nat → String) (msg : Nat → String) :
    ∀ (rem j : Nat),
      (∀ i, j ≤ i → i ≤ j + rem →
        attemptOperation op (env i) (ts i) i = Except.error (msg i)) →
      executeFrom op env ts j rem = (Except.error (msg (j + rem)), j + rem + 1) := by
  intro rem
  induction rem with
  | zero =>
    intro j h
    rw [executeFrom_step_error_zero (h j le_rfl (by omega))]
    simp
  | succ r ih =>
    intro j h
    rw [executeFrom_step_error_succ r (h j le_rfl (by omega))]
    rw [ih (j + 1) (fun i h1 h2 => h i (by omega) (by omega))]
    have h3 : (j + 1) + r = j + (r + 1) := by omega
    rw [h3]

lemma attemptOperation_ok_shape {op : FileOperation} {fs : FsAttempt}
    {tstr : String} {att : Nat} {v : ExecValue}
    (h : attemptOperation op fs tstr att = Except.ok v) :
    (op.type ≠ OpType.read →
      v = ExecValue.successRecord op.type op.path tstr true (att + 1)) ∧
    (op.type = OpType.read →
      ∃ c, v = ExecValue.readResult { op with content := some c }) := by
  rcases op with ⟨t, p, c, d, enc⟩
  cases t <;> cases fs <;> (try cases d) <;> simp_all [attemptOperation] <;>
    exact ⟨_, h.symm⟩

lemma attemptOperation_copy_no_dest (op : FileOperation)
    (ht : op.type = OpType.copy) (hd : op.destination = none)
    (fs : FsAttempt) (tstr : String) (att : Nat) :
    attemptOperation op fs tstr att = Except.error "Destination required for copy" := by
  rcases op with ⟨t, p, c, d, enc⟩
  simp only at ht hd
  subst ht
  subst hd
  cases fs <;> simp [attemptOperation]

lemma attemptOperation_move_no_dest (op : FileOperation)
    (ht : op.type = OpType.move) (hd : op.destination = none)
    (fs : FsAttempt) (tstr : String) (att : Nat) :
    attemptOperation op fs tstr att = Except.error "Destination required for move" := by
  rcases op with ⟨t, p, c, d, enc⟩
  simp only at ht hd
  subst ht
  subst hd
  cases fs <;> simp [attemptOperation]

lemma expectedRecords_length_allok (exec : FileOperation → Except String ExecValue)
    (l : List FileOperation) (h : ∀ op ∈ l, isOkE (exec op) = true) :
    (expectedRecords exec l).length = l.length := by
  rw [expectedRecords_length]
  congr 1
  exact List.filter_eq_self.mpr h

/- Concrete material for witnesses and counterexamples. -/

def wCreate : FileOperation :=
  ⟨OpType.create, "/tmp/a.txt", some "hi", none, Encoding.utf8⟩

def wDelete : FileOperation :=
  ⟨OpType.delete, "/tmp/missing.txt", none, none, Encoding.utf8⟩

def wRead : FileOperation :=
  ⟨OpType.read, "/tmp/r.txt", none, none, Encoding.utf8⟩

def wCopy : FileOperation :=
  ⟨OpType.copy, "/tmp/c.txt", none, none, Encoding.utf8⟩

/-- Concrete executor: delete operations fail, everything else succeeds on
the first attempt. -/
def wExec : FileOperation → Except String ExecValue := fun op =>
  if op.type = OpType.delete then Except.error "ENOENT"
  else Except.ok (ExecValue.successRecord op.type op.path "T0" true 1)

def wEnvOk : FileOperation → Nat → FsAttempt := fun _ _ => FsAttempt.ok "data"

def wTs : FileOperation → Nat → String := fun _ _ => "T0"

def wTs1 : Nat → String := fun _ => "T0"

/-- Per-attempt environment that fails on attempt 0 and succeeds after. -/
def wEnvRetry : Nat → FsAttempt := fun i =>
  if i = 0 then FsAttempt.err "EAGAIN" else FsAttempt.ok "hi"

def wEnvFail : Nat → FsAttempt := fun _ => FsAttempt.err "ENOENT"

/- Claim theorems. -/

/-- Claim C1: for every batch run, summary.total equals the number of input
operations, summary.successful counts the Success outcomes among the
attempted operations, summary.failed counts the Failure outcomes, and
successful + failed equals the number of operations actually attempted. -/
theorem batch_summary_counts (operations : List FileOperation)
    (opts : BatchOptions) (exec : FileOperation → Except String ExecValue)
    (reorder : List FileOperation → List FileOperation) :
    (runBatch operations opts exec reorder).1.total = operations.length ∧
    (runBatch operations opts exec reorder).1.successful =
      (((runBatch operations opts exec reorder).2).filter
        (fun op => isOkE (exec op))).length ∧
    (runBatch operations opts exec reorder).1.failed =
      (((runBatch operations opts exec reorder).2).filter
        (fun op => !isOkE (exec op))).length ∧
    (runBatch operations opts exec reorder).1.successful +
        (runBatch operations opts exec reorder).1.failed =
      ((runBatch operations opts exec reorder).2).length := by
  obtain ⟨o1, h1⟩ := runGroups_master exec opts.stopOnError
    ((groupedOperations opts.groupByType operations).map reorder) ⟨[], [], []⟩
  simp only [runBatch, h1]
  simp only [List.nil_append]
  refine ⟨?_, expectedRecords_length exec o1, expectedErrors_length exec o1,
    expected_length_sum exec o1⟩
  trivial

/-- Claim C2 (amended): the results field is the ordered sequence of full
Success outcome records, each carrying the operation, the executor's
return value in its result field, and the status tag success — not the
bare execution return values. -/
theorem results_are_success_records (operations : List FileOperation)
    (opts : BatchOptions) (exec : FileOperation → Except String ExecValue)
    (reorder : List FileOperation → List FileOperation) :
    (runBatch operations opts exec reorder).1.results =
      expectedRecords exec ((runBatch operations opts exec reorder).2) ∧
    ∀ rec ∈ (runBatch operations opts exec reorder).1.results,
      rec.status = "success" ∧ exec rec.operation = Except.ok rec.result := by
  obtain ⟨o1, h1⟩ := runGroups_master exec opts.stopOnError
    ((groupedOperations opts.groupByType operations).map reorder) ⟨[], [], []⟩
  simp only [runBatch, h1]
  simp only [List.nil_append]
  refine ⟨by trivial, ?_⟩
  intro rec hrec
  rcases List.mem_filterMap.mp hrec with ⟨op, _, hmatch⟩
  cases h : exec op with
  | ok v =>
    rw [h] at hmatch
    simp only [Option.some_inj] at hmatch
    rw [← hmatch]
    exact ⟨rfl, h⟩
  | error e =>
    rw [h] at hmatch
    simp at hmatch

/-- Claim C2 counterexample: on a concrete one-operation request, the
results array holds the full outcome record — it carries the input
operation and the status tag success rather than being the executor's
return value itself. -/
theorem results_full_records_counterexample :
    (batchPipeline [wCreate] defaultBatchOptions wEnvOk wTs id).1.results =
      [⟨wCreate, ExecValue.successRecord OpType.create "/tmp/a.txt" "T0" true 1,
        "success"⟩] ∧
    ((batchPipeline [wCreate] defaultBatchOptions wEnvOk wTs id).1.results).map
      SuccessRecord.operation = [wCreate] ∧
    ((batchPipeline [wCreate] defaultBatchOptions wEnvOk wTs id).1.results).map
      SuccessRecord.status = ["success"] :=
  ⟨rfl, rfl, rfl⟩

/-- Witness for claim C2's amended theorem at a concrete input. -/
theorem results_are_success_records_witness :
    (runBatch [wCreate] defaultBatchOptions wExec id).1.results =
      expectedRecords wExec ((runBatch [wCreate] defaultBatchOptions wExec id).2) ∧
    (⟨wCreate, ExecValue.successRecord OpType.create "/tmp/a.txt" "T0" true 1,
      "success"⟩ : SuccessRecord).status = "success" :=
  ⟨(results_are_success_records [wCreate] defaultBatchOptions wExec id).1,
   ((results_are_success_records [wCreate] defaultBatchOptions wExec id).2
     ⟨wCreate, ExecValue.successRecord OpType.create "/tmp/a.txt" "T0" true 1,
      "success"⟩ (by decide)).1⟩

/-- Claim C3: with groupByType true the groups are the input filtered per
type, listed in first-seen-type order (so their concatenation is a
permutation of the input preserving within-type relative order, and each
group holds exactly one type); with groupByType false there is one group
holding all operations in original order. -/
theorem grouping_policy_correct (operations : List FileOperation) :
    groupOperationsByType operations =
      (firstSeenTypes operations).map (typeFilter operations) ∧
    List.Perm ((groupOperationsByType operations).flatten) operations ∧
    (∀ g ∈ groupOperationsByType operations, ∀ x ∈ g, ∀ y ∈ g, x.type = y.type) ∧
    groupedOperations false operations = [operations] := by
  refine ⟨groupOperationsByType_eq operations, ?_, ?_, rfl⟩
  · rw [groupOperationsByType_eq]
    apply join_map_typeFilter_perm
    · exact firstSeenTypes_nodup operations
    · intro op hop
      exact (mem_firstSeenTypes op.type operations).mpr
        (List.mem_map.mpr ⟨op, hop, rfl⟩)
  · intro g hg x hx y hy
    rw [groupOperationsByType_eq] at hg
    rcases List.mem_map.mp hg with ⟨t, _, rfl⟩
    rw [mem_typeFilter_type hx, mem_typeFilter_type hy]

/-- Witness for claim C3's theorem at a concrete input. -/
theorem grouping_policy_correct_witness :
    List.Perm ((groupOperationsByType [wDelete, wCreate]).flatten)
      [wDelete, wCreate] ∧
    wDelete.type = wDelete.type :=
  ⟨(grouping_policy_correct [wDelete, wCreate]).2.1,
   (grouping_policy_correct [wDelete, wCreate]).2.2.1 [wDelete] (by decide)
     wDelete (by decide) wDelete (by decide)⟩

/-- Claim C9: every group produced with groupByType true is non-empty; a
group exists only for a type that occurs in the input, and all its
operations carry that type. -/
theorem groups_nonempty (operations : List FileOperation)
    (g : List FileOperation) (hg : g ∈ groupOperationsByType operations) :
    g ≠ [] ∧ ∃ t, t ∈ operations.map FileOperation.type ∧ ∀ x ∈ g, x.type = t := by
  rw [groupOperationsByType_eq] at hg
  rcases List.mem_map.mp hg with ⟨t, ht, rfl⟩
  have htm : t ∈ operations.map FileOperation.type :=
    (mem_firstSeenTypes t operations).mp ht
  constructor
  · rcases List.mem_map.mp htm with ⟨op, hop, rfl⟩
    intro hnil
    have hmem : op ∈ typeFilter operations op.type := by
      simp [typeFilter, List.mem_filter, hop]
    rw [hnil] at hmem
    simp at hmem
  · exact ⟨t, htm, fun x hx => mem_typeFilter_type hx⟩

/-- Witness for claim C9's theorem at a concrete input. -/
theorem groups_nonempty_witness :
    [wCreate] ≠ ([] : List FileOperation) ∧
    ∃ t, t ∈ [wCreate].map FileOperation.type ∧ ∀ x ∈ [wCreate], x.type = t :=
  groups_nonempty [wCreate] [wCreate] (by decide)

/-- Claim C10: a batch over an empty operations list attempts no operation
and returns the all-zero summary with empty results and errors. -/
theorem empty_batch_summary (opts : BatchOptions)
    (exec : FileOperation → Except String ExecValue)
    (reorder : List FileOperation → List FileOperation)
    (hre : ∀ g, List.Perm (reorder g) g) :
    runBatch [] opts exec reorder = (⟨0, 0, 0, [], []⟩, []) := by
  have hnil : reorder [] = [] := (hre []).eq_nil
  cases hb : opts.groupByType with
  | false =>
    simp [runBatch, groupedOperations, hb, hnil, runGroups, runGroup]
  | true =>
    simp [runBatch, groupedOperations, hb, groupOperationsByType, runGroups]

/-- Witness for claim C10's theorem at a concrete input. -/
theorem empty_batch_summary_witness :
    runBatch [] defaultBatchOptions wExec id = (⟨0, 0, 0, [], []⟩, []) :=
  empty_batch_summary defaultBatchOptions wExec id (fun g => List.Perm.refl g)

/-- Claim C4 (amended): with retryAttempts r, an operation whose first k
attempts fail and whose attempt k succeeds (k at most r) returns the
succeeding attempt's value after exactly k+1 attempts; for non-read
operations that value is the success record whose attempt field is k+1,
while a read instead returns the operation augmented with the content
read.  An operation all of whose attempts fail makes exactly r+1 attempts
and propagates the last attempt's error. -/
theorem executor_retry_behavior (op : FileOperation) (opts : BatchOptions)
    (env : Nat → FsAttempt) (ts : Nat → String) (k : Nat) (v : ExecValue)
    (msg : Nat → String) :
    (k ≤ opts.retryAttempts →
      (∀ i, i < k → isOkE (attemptOperation op (env i) (ts i) i) = false) →
      attemptOperation op (env k) (ts k) k = Except.ok v →
      executeFileOperation op opts env ts = (Except.ok v, k + 1) ∧
      (op.type ≠ OpType.read →
        v = ExecValue.successRecord op.type op.path (ts k) true (k + 1)) ∧
      (op.type = OpType.read →
        ∃ c, v = ExecValue.readResult { op with content := some c })) ∧
    ((∀ i, i ≤ opts.retryAttempts →
        attemptOperation op (env i) (ts i) i = Except.error (msg i)) →
      executeFileOperation op opts env ts =
        (Except.error (msg opts.retryAttempts), opts.retryAttempts + 1)) := by
  constructor
  · intro hk hfail hok
    have h0 : attemptOperation op (env (0 + k)) (ts (0 + k)) (0 + k) =
        Except.ok v := by
      simpa using hok
    have hrun := executeFrom_ok_after_failures op env ts v k 0 opts.retryAttempts
      hk (fun i h1 h2 => hfail i (by omega)) h0
    refine ⟨by simpa [executeFileOperation] using hrun, ?_, ?_⟩
    · exact fun hne => (attemptOperation_ok_shape hok).1 hne
    · exact fun he => (attemptOperation_ok_shape hok).2 he
  · intro hfail
    have hrun := executeFrom_all_fail op env ts msg opts.retryAttempts 0
      (fun i h1 h2 => hfail i (by omega))
    simpa [executeFileOperation] using hrun

/-- Claim C4 counterexample: a read operation that fails once and then
succeeds (retryAttempts 1, so k = 1) returns the augmented operation,
which is not a success record and carries no attempt field, refuting the
claim as stated for read operations. -/
theorem executor_retry_counterexample :
    executeFileOperation wRead defaultBatchOptions wEnvRetry wTs1 =
      (Except.ok (ExecValue.readResult { wRead with content := some "hi" }), 2) ∧
    ExecValue.isSuccessRecord
      (ExecValue.readResult { wRead with content := some "hi" }) = false :=
  ⟨rfl, rfl⟩

/-- Witness for claim C4's amended theorem at concrete inputs. -/
theorem executor_retry_behavior_witness :
    executeFileOperation wCreate defaultBatchOptions wEnvRetry wTs1 =
      (Except.ok (ExecValue.successRecord OpType.create "/tmp/a.txt" "T0" true 2),
       2) ∧
    executeFileOperation wDelete defaultBatchOptions wEnvFail wTs1 =
      (Except.error "ENOENT", 2) := by
  constructor
  · exact ((executor_retry_behavior wCreate defaultBatchOptions wEnvRetry wTs1 1
      (ExecValue.successRecord OpType.create "/tmp/a.txt" "T0" true 2)
      (fun _ => "ENOENT")).1 (by decide)
      (by
        intro i hi
        have h0 : i = 0 := by omega
        subst h0
        rfl) rfl).1
  · exact (executor_retry_behavior wDelete defaultBatchOptions wEnvFail wTs1 0
      (ExecValue.successRecord OpType.delete "x" "T0" true 1)
      (fun _ => "ENOENT")).2 (fun i _ => rfl)

/-- Claim C5: with stopOnError true, when the first failure f occurs in
some group (every operation completing before it having succeeded), f's
Failure outcome is recorded, the rest of f's group is aborted, no
operation of any later group is attempted, the results of the operations
already completed are retained, and the summary keeps total equal to the
input length while successful + failed counts only the attempted
operations. -/
theorem stop_on_error_aborts (operations : List FileOperation)
    (opts : BatchOptions) (exec : FileOperation → Except String ExecValue)
    (reorder : List FileOperation → List FileOperation)
    (pre post : List (List FileOperation)) (a b : List FileOperation)
    (f : FileOperation) (e : String)
    (hstop : opts.stopOnError = true)
    (hgrouped : (groupedOperations opts.groupByType operations).map reorder =
      pre ++ (a ++ f :: b) :: post)
    (hpre : ∀ op ∈ pre.flatten, isOkE (exec op) = true)
    (ha : ∀ op ∈ a, isOkE (exec op) = true)
    (hf : exec f = Except.error e) :
    (runBatch operations opts exec reorder).2 = pre.flatten ++ a ++ [f] ∧
    (runBatch operations opts exec reorder).1.errors = [⟨f, e, "failed"⟩] ∧
    (runBatch operations opts exec reorder).1.results =
      expectedRecords exec (pre.flatten ++ a) ∧
    (runBatch operations opts exec reorder).1.total = operations.length ∧
    (runBatch operations opts exec reorder).1.successful +
        (runBatch operations opts exec reorder).1.failed =
      pre.flatten.length + a.length + 1 := by
  have hrun :
      runBatch operations opts exec reorder =
        (⟨operations.length,
          (expectedRecords exec pre.flatten ++ expectedRecords exec a).length,
          1,
          expectedRecords exec pre.flatten ++ expectedRecords exec a,
          [⟨f, e, "failed"⟩]⟩,
         pre.flatten ++ (a ++ [f])) := by
    simp only [runBatch, hstop, hgrouped]
    rw [runGroups_true_pre exec pre ((a ++ f :: b) :: post) ⟨[], [], []⟩ hpre]
    rw [runGroups_cons_true (runGroup_true_failure exec f e hf a b _ ha) post]
    simp
  rw [hrun]
  refine ⟨by simp [List.append_assoc], rfl,
    (expectedRecords_append exec pre.flatten a).symm, rfl, ?_⟩
  simp [List.length_append, expectedRecords_length_allok exec pre.flatten hpre,
    expectedRecords_length_allok exec a ha]

/-- Witness for claim C5's theorem at a concrete input: the failing delete
is grouped before the create, which is then never attempted. -/
theorem stop_on_error_aborts_witness :
    (runBatch [wDelete, wCreate]
        { defaultBatchOptions with stopOnError := true } wExec id).2 =
      [wDelete] ∧
    (runBatch [wDelete, wCreate]
        { defaultBatchOptions with stopOnError := true } wExec id).1.errors =
      [⟨wDelete, "ENOENT", "failed"⟩] ∧
    (runBatch [wDelete, wCreate]
        { defaultBatchOptions with stopOnError := true } wExec id).1.total = 2 ∧
    (runBatch [wDelete, wCreate]
        { defaultBatchOptions with stopOnError := true } wExec id).1.successful +
      (runBatch [wDelete, wCreate]
        { defaultBatchOptions with stopOnError := true } wExec id).1.failed = 1 := by
  have h := stop_on_error_aborts [wDelete, wCreate]
    { defaultBatchOptions with stopOnError := true } wExec id
    [] [[wCreate]] [] [] wDelete "ENOENT" rfl rfl
    (by intro op hop; simp at hop) (by intro op hop; simp at hop) rfl
  exact ⟨h.1, h.2.1, h.2.2.2.1, h.2.2.2.2⟩

/-- Claim C6: a copy or move operation without destination always fails
with the destination-required error after the full retry budget, whatever
the retry count and environment; and the request parser accepts an
otherwise well-formed copy or move operation with no destination, so the
absence is not rejected at request-parse time. -/
theorem copy_move_destination_required (op : FileOperation)
    (opts : BatchOptions) (env : Nat → FsAttempt) (ts : Nat → String)
    (p : String) (c : Option String)
    (hdest : op.destination = none) :
    (op.type = OpType.copy →
      executeFileOperation op opts env ts =
        (Except.error "Destination required for copy", opts.retryAttempts + 1)) ∧
    (op.type = OpType.move →
      executeFileOperation op opts env ts =
        (Except.error "Destination required for move", opts.retryAttempts + 1)) ∧
    parseFileOperation ⟨some "copy", some p, c, none, none⟩ =
      Except.ok ⟨OpType.copy, p, c, none, Encoding.utf8⟩ ∧
    parseFileOperation ⟨some "move", some p, c, none, none⟩ =
      Except.ok ⟨OpType.move, p, c, none, Encoding.utf8⟩ := by
  refine ⟨?_, ?_, ?_, ?_⟩
  · intro ht
    have hrun := executeFrom_all_fail op env ts
      (fun _ => "Destination required for copy") opts.retryAttempts 0
      (fun i _ _ => attemptOperation_copy_no_dest op ht hdest (env i) (ts i) i)
    simpa [executeFileOperation] using hrun
  · intro ht
    have hrun := executeFrom_all_fail op env ts
      (fun _ => "Destination required for move") opts.retryAttempts 0
      (fun i _ _ => attemptOperation_move_no_dest op ht hdest (env i) (ts i) i)
    simpa [executeFileOperation] using hrun
  · simp [parseFileOperation, parseOpType, parseEncoding]
  · simp [parseFileOperation, parseOpType, parseEncoding]

/-- Witness for claim C6's theorem at a concrete input. -/
theorem copy_move_destination_required_witness :
    executeFileOperation wCopy defaultBatchOptions wEnvFail wTs1 =
      (Except.error "Destination required for copy", 2) ∧
    parseFileOperation ⟨some "copy", some "/tmp/c.txt", none, none, none⟩ =
      Except.ok ⟨OpType.copy, "/tmp/c.txt", none, none, Encoding.utf8⟩ := by
  have h := copy_move_destination_required wCopy defaultBatchOptions wEnvFail
    wTs1 "/tmp/c.txt" none rfl
  exact ⟨h.1 rfl, h.2.2.1⟩

/-- Claim C7: a request that parses always runs to a summary response, for
every execution environment (individual operation failures are recovered
into the summary and never escape as exceptions); a request-shape failure
is caught at the tool boundary and returned as a text payload reading
Error: message. -/
theorem tool_boundary_error_handling (args : RawBatchRequest)
    (env : FileOperation → Nat → FsAttempt) (ts : FileOperation → Nat → String)
    (reorder : List FileOperation → List FileOperation) :
    (∀ req, parseBatchRequest args = Except.ok req →
      handleBatchFileOperations args env ts reorder =
        Except.ok ⟨[("text", TextPayload.summaryJson
          ((batchPipeline req.operations (req.options.getD defaultBatchOptions)
            env ts reorder).1))]⟩) ∧
    (∀ e, parseBatchRequest args = Except.error e →
      callToolBoundary (handleBatchFileOperations args env ts reorder) =
        ⟨[("text", TextPayload.raw ("Error: " ++ e))]⟩) := by
  constructor
  · intro req h
    rw [handleBatchFileOperations, h]
  · intro e h
    rw [handleBatchFileOperations, h]
    rfl

def wGoodArgs : RawBatchRequest :=
  ⟨some [⟨some "create", some "/tmp/a.txt", some "hi", none, none⟩], none⟩

def wBadArgs : RawBatchRequest := ⟨none, none⟩

/-- Witness for claim C7's theorem: a parseable request yields a summary
response; a request missing its operations array yields the boundary's
error text. -/
theorem tool_boundary_error_handling_witness :
    handleBatchFileOperations wGoodArgs wEnvOk wTs id =
      Except.ok ⟨[("text", TextPayload.summaryJson
        ((batchPipeline [wCreate] defaultBatchOptions wEnvOk wTs id).1))]⟩ ∧
    callToolBoundary (handleBatchFileOperations wBadArgs wEnvOk wTs id) =
      ⟨[("text", TextPayload.raw "Error: operations: Required")]⟩ := by
  constructor
  · exact (tool_boundary_error_handling wGoodArgs wEnvOk wTs id).1
      ⟨[wCreate], none⟩ rfl
  · exact (tool_boundary_error_handling wBadArgs wEnvOk wTs id).2
      "operations: Required" rfl

/-- Claim C8: timeoutMs is range-checked and defaulted by the options
schema but never read by the coordinator or executor: two runs over
options differing only in timeoutMs (both in range) behave identically
and return the same summary. -/
theorem timeout_not_enforced (operations : List FileOperation)
    (o : BatchOptions) (env : FileOperation → Nat → FsAttempt)
    (ts : FileOperation → Nat → String)
    (reorder : List FileOperation → List FileOperation) (t1 t2 : Nat)
    (h1 : 1000 ≤ t1) (h2 : 1000 ≤ t2) :
    batchPipeline operations { o with timeoutMs := t1 } env ts reorder =
      batchPipeline operations { o with timeoutMs := t2 } env ts reorder ∧
    parseBatchOptions ⟨none, none, none, none, none⟩ =
      Except.ok defaultBatchOptions ∧
    parseBatchOptions ⟨none, some t1, none, none, none⟩ =
      Except.ok { defaultBatchOptions with timeoutMs := t1 } ∧
    (∀ u, u < 1000 →
      parseBatchOptions ⟨none, some u, none, none, none⟩ =
        Except.error "timeoutMs: too small") := by
  refine ⟨rfl, rfl, ?_, ?_⟩
  · simp [parseBatchOptions, parseBoundedNat, defaultBatchOptions,
      Nat.not_lt.mpr h1]
  · intro u hu
    simp [parseBatchOptions, parseBoundedNat, hu]

/-- Witness for claim C8's theorem at concrete inputs. -/
theorem timeout_not_enforced_witness :
    batchPipeline [wCreate] { defaultBatchOptions with timeoutMs := 30000 }
        wEnvOk wTs id =
      batchPipeline [wCreate] { defaultBatchOptions with timeoutMs := 60000 }
        wEnvOk wTs id ∧
    parseBatchOptions ⟨none, none, none, none, none⟩ =
      Except.ok defaultBatchOptions :=
  ⟨(timeout_not_enforced [wCreate] defaultBatchOptions wEnvOk wTs id 30000 60000
      (by decide) (by decide)).1,
   (timeout_not_enforced [wCreate] defaultBatchOptions wEnvOk wTs id 30000 60000
      (by decide) (by decide)).2.1⟩

end BatchServer
